import Mathlib

/-!
Shallow embedding of the backup/restore engine of the memoria-neo4j
repository, together with theorems settling the frozen claims about its
specification.

The embedded code lives in two files of the repository:
  backend/neo4j_backup_restore.py   (v3.1 engine, class Neo4jBackupRestore)
  neo4j_backup_restore.py           (root-level v2.0 engine)
with the shared identifier helpers in backend/utils.py.

Conventions of the embedding:
  - Python strings are Lean String values; character classes are modelled
    on Unicode code points exactly as Python treats them.
  - Python dict-with-insertion-order is modelled as an association list
    that keeps insertion order and replaces on key collision.
  - Database calls are modelled on their documented happy path: a batched
    UNWIND CREATE returns one row per batch item, in order.  The
    exception-fallback paths of the source are not triggered on this path
    and are out of scope of the claims proved here.
-/

/-! ## Identifier sanitizer (backend/utils.py and backend/neo4j_backup_restore.py) -/

/-- Character class `[a-zA-Z_]`, the allowed first character of the pattern
`VALID_IDENTIFIER_PATTERN = re.compile of ^[a-zA-Z_][a-zA-Z0-9_]*$`. -/
def isIdentStart (c : Char) : Bool :=
  ('a' ≤ c && c ≤ 'z') || ('A' ≤ c && c ≤ 'Z') || c = '_'

/-- Character class `[a-zA-Z0-9_]`, the repeated character class of the
pattern and also the class kept unchanged by the re.sub substitution of non-word characters by underscore. -/
def isIdentChar (c : Char) : Bool :=
  isIdentStart c || ('0' ≤ c && c ≤ '9')

/-- ASCII digit test.  The source calls Python `str.isdigit` only on the
first character of the output of the re.sub substitution of non-word characters by underscore, which is
always an ASCII word character; on those characters `str.isdigit` coincides
with this ASCII test. -/
def pyIsDigit (c : Char) : Bool :=
  '0' ≤ c && c ≤ '9'

/-- Matching engine for the tail `[a-zA-Z0-9_]*$` of the identifier pattern,
with Python semantics of the `$` anchor: without `re.MULTILINE`, `$` matches
at the end of the string or just before a newline at the end of the string.
So the star may stop either at the very end or right before one final
newline character. -/
def reTailMatch : List Char → Bool
  | [] => true
  | c :: cs => (c = '\n' && cs = []) || (isIdentChar c && reTailMatch cs)

/-- Embeds `bool(VALID_IDENTIFIER_PATTERN.match(s))` for the pattern
`^[a-zA-Z_][a-zA-Z0-9_]*$` under Python `re` semantics (`re.match` anchors at
the start; `$` also matches before one trailing newline). -/
def pyIdentMatch (s : String) : Bool :=
  match s.data with
  | [] => false
  | c :: cs => isIdentStart c && reTailMatch cs

/-- Embeds `utils.validate_cypher_identifier`: an explicit empty-string
rejection followed by the anchored regex match. -/
def validate_cypher_identifier (s : String) : Bool :=
  if s = "" then false else pyIdentMatch s

/-- Embeds `validate_cypher_label` of backend/neo4j_backup_restore.py:
`bool(VALID_LABEL_PATTERN.match(label))` with the same pattern. -/
def validate_cypher_label (s : String) : Bool :=
  pyIdentMatch s

/-- Embeds `validate_cypher_rel_type` of backend/neo4j_backup_restore.py,
which uses the identical pattern `VALID_REL_TYPE_PATTERN`. -/
def validate_cypher_rel_type (s : String) : Bool :=
  pyIdentMatch s

/-- Identifier grammar exactly as the specification words it: the first
character is a letter or underscore and every remaining character is a
letter, digit, or underscore; the empty string is rejected. -/
def specIdentifierGrammar (s : String) : Bool :=
  match s.data with
  | [] => false
  | c :: cs => isIdentStart c && cs.all isIdentChar

/-- Embeds the re.sub substitution of non-word characters by underscore: every character outside the
word class is replaced by an underscore. -/
def pySubNonWord (s : String) : String :=
  String.mk (s.data.map (fun c => if isIdentChar c then c else '_'))

/-- Embeds the Python test `sanitized and sanitized[0].isdigit()`. -/
def firstIsDigit (s : String) : Bool :=
  match s.data with
  | [] => false
  | c :: _ => pyIsDigit c

/-- Embeds `utils.sanitize_cypher_identifier(identifier, default)`:
empty input returns the fallback; otherwise non-word characters become
underscores, a leading digit gets an underscore prefixed, and an empty
result falls back to the default. -/
def sanitize_cypher_identifier (identifier : String) (dflt : String) : String :=
  if identifier = "" then dflt
  else
    let sanitized := pySubNonWord identifier
    let sanitized := if firstIsDigit sanitized then "_" ++ sanitized else sanitized
    if sanitized = "" then dflt else sanitized

/-- Embeds `sanitize_label` of backend/neo4j_backup_restore.py: same
substitution and digit-prefix steps, with the literal fallback Node
applied via the final or-default expression (no early return on empty input). -/
def sanitize_label (label : String) : String :=
  let sanitized := pySubNonWord label
  let sanitized := if firstIsDigit sanitized then "_" ++ sanitized else sanitized
  if sanitized = "" then "Node" else sanitized

/-! ## Safe zip extraction (backend/neo4j_backup_restore.py, _extract_backup_safe)

POSIX paths are modelled as lists of components; an absolute path
`/a/b/c` is the component list `[a, b, c]`.  The extraction directory
produced by `tempfile.mkdtemp` is such an absolute, already-normalized
path. -/

/-- Splits a character list at every occurrence of the separator, with the
semantics of Python `str.split(sep)`: the empty input yields one empty
part, and adjacent separators yield empty parts. -/
def splitChars (sep : Char) : List Char → List (List Char)
  | [] => [[]]
  | c :: cs =>
      let rest := splitChars sep cs
      if c = sep then [] :: rest
      else
        match rest with
        | r :: rs => (c :: r) :: rs
        | [] => [[c]]

/-- Components of a zip member name, split on the POSIX separator.  The raw
parts may contain empty strings, a dot, or a parent-directory reference. -/
def splitPath (m : String) : List String :=
  (splitChars '/' m.data).map String.mk

/-- Joins strings with a separator, the semantics of Python
`sep.join(parts)`. -/
def joinWith (sep : String) : List String → String
  | [] => ""
  | [x] => x
  | x :: xs => x ++ sep ++ joinWith sep xs

/-- Embeds `str.startswith(p)` as a prefix test on the character lists. -/
def strStartsWith (s p : String) : Bool :=
  p.data.isPrefixOf s.data

/-- Embeds `str.endswith(p)` as a suffix test on the character lists. -/
def strEndsWith (s p : String) : Bool :=
  p.data.isSuffixOf s.data

/-- Embeds `Path(member).is_absolute()` on POSIX: true exactly when the
member name starts with a slash. -/
def pyIsAbsolute (m : String) : Bool :=
  strStartsWith m "/"

/-- One step of lexical path normalization: empty and dot components are
dropped, a parent reference pops the last component (staying at the root
when already there), anything else is pushed. -/
def resolveStep (acc : List String) (p : String) : List String :=
  if p = "" || p = "." then acc
  else if p = ".." then acc.dropLast
  else acc ++ [p]

/-- Embeds `(temp_dir / member).resolve()` in the absence of symlinks:
the member components are appended to the (already resolved) directory
components and the result is normalized lexically. -/
def resolveUnder (tempDir : List String) (m : String) : List String :=
  (splitPath m).foldl resolveStep tempDir

/-- Embeds `str(p)` for an absolute POSIX path given by its components. -/
def pathStr (comps : List String) : String :=
  "/" ++ joinWith "/" comps

/-- Embeds the path sanitization that `zipfile.ZipFile.extract` applies to a
member name before writing (CPython `ZipFile._extract_member`): the name is
split on the separator and every empty, current-directory, or
parent-directory component is dropped. -/
def zipExtractParts (m : String) : List String :=
  (splitPath m).filter (fun p => !(p = "" || p = "." || p = ".."))

/-- Containment of one absolute path in a directory, component-wise: the
directory components are a prefix of the path components. -/
def isWithin (p tempDir : List String) : Bool :=
  tempDir.isPrefixOf p

/-- Embeds the per-entry logic of `_extract_backup_safe`: absolute member
names are skipped, then a member is skipped when the string form of its
resolved target does not have the string form of the extraction directory as
a prefix, then only names ending in `.json` are extracted.  The result is
the absolute component path the entry is written to (`zf.extract(member,
temp_dir)`), or none when the entry is skipped. -/
def extractDecision (tempDir : List String) (m : String) : Option (List String) :=
  if pyIsAbsolute m then none
  else if !(strStartsWith (pathStr (resolveUnder tempDir m)) (pathStr tempDir)) then none
  else if strEndsWith m ".json" then some (tempDir ++ zipExtractParts m) else none

/-- Embeds the extraction loop over `zf.namelist()`: each member is decided
independently, skipped members contribute nothing, and processing always
continues to the next member. -/
def extractAll (tempDir : List String) (names : List String) : List (List String) :=
  names.filterMap (extractDecision tempDir)

/-- A well-formed extraction directory: the component list of a resolved
`mkdtemp` result has no empty, dot, or parent components. -/
def cleanDirComps (tempDir : List String) : Bool :=
  tempDir.all (fun p => !(p = "" || p = "." || p = ".."))

/-! ## Clear-target step (backend `_prepare_database_for_restore` and the
root-level `restore_backup`) -/

/-- Queries issued by the clear-target step. -/
inductive ClearQuery
  | deleteAllRels
  | deleteAllNodes
deriving DecidableEq, Repr

/-- Observable database events of the clear-target step.  `session.run` in
the Python driver auto-commits each statement in its own transaction, so the
root-level engine produces a begin/commit pair around every statement. -/
inductive DbEvent
  | txBegin
  | txCommit
  | runQ (q : ClearQuery)
deriving DecidableEq, Repr

/-- Embeds the backend clear step: one explicit transaction
(`session.begin_transaction()`) that runs the relationship deletion, then
the node deletion, then commits. -/
def backendClearEvents : List DbEvent :=
  [DbEvent.txBegin, DbEvent.runQ ClearQuery.deleteAllRels,
   DbEvent.runQ ClearQuery.deleteAllNodes, DbEvent.txCommit]

/-- Embeds the root-level clear step: two separate `session.run` calls, each
an auto-committed transaction of its own, relationships first. -/
def rootClearEvents : List DbEvent :=
  [DbEvent.txBegin, DbEvent.runQ ClearQuery.deleteAllRels, DbEvent.txCommit,
   DbEvent.txBegin, DbEvent.runQ ClearQuery.deleteAllNodes, DbEvent.txCommit]

/-- Recognizes a transaction-begin event. -/
def isTxBegin : DbEvent → Bool
  | DbEvent.txBegin => true
  | _ => false

/-- Recognizes a transaction-commit event. -/
def isTxCommit : DbEvent → Bool
  | DbEvent.txCommit => true
  | _ => false

/-- Recognizes a query-run event. -/
def isRunQ : DbEvent → Bool
  | DbEvent.runQ _ => true
  | _ => false

/-- An event trace forming a single atomic transaction: it opens with the
one and only begin, closes with the one and only commit, and everything in
between is query execution, so the enclosed statements commit or roll back
as a unit. -/
def singleAtomicTx (es : List DbEvent) : Bool :=
  es.countP isTxBegin = 1 && es.countP isTxCommit = 1 &&
  es.head? = some DbEvent.txBegin && es.getLast? = some DbEvent.txCommit &&
  ((es.drop 1).dropLast.all isRunQ)

/-- No node deletion is issued before a relationship deletion: scanning the
trace, a node-deletion run may only appear after a relationship-deletion run
has appeared. -/
def noNodesBeforeRels : List DbEvent → Bool
  | [] => true
  | DbEvent.runQ ClearQuery.deleteAllNodes :: _ => false
  | DbEvent.runQ ClearQuery.deleteAllRels :: _ => true
  | _ :: es => noNodesBeforeRels es

/-- Embeds Python `str.lower` for the confirmation answer (ASCII letters;
the compared literal is lowercase yes). -/
def pyLower (s : String) : String :=
  String.mk (s.data.map Char.toLower)

/-- Embeds the decision logic of `_prepare_database_for_restore`: when the
target holds any node or relationship, the (injected) confirmation answer is
consulted and the clear trace is issued only on a lowercase `yes`; an empty
target issues no events at all. -/
def prepareClearEvents (currentNodes currentRels : Nat) (confirm : String) : List DbEvent :=
  if currentNodes > 0 || currentRels > 0 then
    if pyLower confirm = "yes" then backendClearEvents else []
  else []

/-! ## JSON values and serialization

The backup payload is a Python dict serialized with
`json.dump(backup_data, f, indent=2, ensure_ascii=False)`.  Values are
modelled as a tagged variant; the claims proved below depend only on an
object rendering opening with a brace, so the renderer follows the
`indent=2` layout of the source without chasing every whitespace detail. -/

/-- Tagged variant of JSON values (the PropertyValue model of the spec,
restricted to the value kinds the engine actually serializes). -/
inductive JValue
  | null
  | bool (b : Bool)
  | num (n : Int)
  | str (s : String)
  | arr (items : List JValue)
  | obj (fields : List (String × JValue))

/-- JSON string escaping for the renderer (quote, backslash, newline). -/
def jsonEscape (s : String) : String :=
  String.mk (s.data.foldr (fun c acc =>
    if c = '"' then '\\' :: '"' :: acc
    else if c = '\\' then '\\' :: '\\' :: acc
    else if c = '\n' then '\\' :: 'n' :: acc
    else c :: acc) [])

/-- Indentation of `2 * level` spaces, as produced by `indent=2`. -/
def jsonIndent (level : Nat) : String :=
  String.mk (List.replicate (2 * level) ' ')

/-- Renders one JSON value at the given indentation level, following the
`indent=2` layout: non-empty containers open on their own line and indent
their elements by one further level. -/
def jsonRender (level : Nat) : JValue → String
  | JValue.null => "null"
  | JValue.bool b => if b then "true" else "false"
  | JValue.num n => toString n
  | JValue.str s => "\"" ++ jsonEscape s ++ "\""
  | JValue.arr items =>
      if items.isEmpty then "[]"
      else
        "[\n" ++ jsonIndent (level + 1)
          ++ String.intercalate (",\n" ++ jsonIndent (level + 1))
               (items.attach.map (fun x => jsonRender (level + 1) x.1))
          ++ "\n" ++ jsonIndent level ++ "]"
  | JValue.obj fields =>
      if fields.isEmpty then "\x7b\x7d"
      else
        "\x7b\n" ++ jsonIndent (level + 1)
          ++ String.intercalate (",\n" ++ jsonIndent (level + 1))
               (fields.attach.map (fun x =>
                 "\"" ++ jsonEscape x.1.1 ++ "\": " ++ jsonRender (level + 1) x.1.2))
          ++ "\n" ++ jsonIndent level ++ "\x7d"
termination_by v => sizeOf v
decreasing_by
  · have h1 := List.sizeOf_lt_of_mem x.2
    simp only [JValue.arr.sizeOf_spec]
    omega
  · have h1 := List.sizeOf_lt_of_mem x.2
    have h2 : sizeOf x.1.2 < sizeOf x.1 := by
      obtain ⟨a, b⟩ := x.1
      simp only [Prod.mk.sizeOf_spec]
      omega
    simp only [JValue.obj.sizeOf_spec]
    omega

/-- Embeds `json.dump(v, f, indent=2, ensure_ascii=False)` as the string
written to the file. -/
def jsonDump (v : JValue) : String :=
  jsonRender 0 v

/-! ## Archive writer (backend `_save_backup_files`, root `create_backup`) -/

/-- Embeds the `backup_data` dict built by `create_backup`: a metadata
object followed by the node and relationship sequences. -/
def backupData (metaFields : List (String × JValue))
    (nodes relations : List JValue) : JValue :=
  JValue.obj [("metadata", JValue.obj metaFields),
              ("nodes", JValue.arr nodes),
              ("relations", JValue.arr relations)]

/-- Embeds the sidecar text written next to the primary data file:
`f"(hash)  (name)\n"`, the hex digest, two spaces, the file name, a
newline. -/
def sidecarContent (hashHex fileName : String) : String :=
  hashHex ++ "  " ++ fileName ++ "\n"

/-- Embeds the guarded compression computation of backend
`_save_backup_files`: `(1 - zip_size / file_size) * 100` when the file size
is positive, and the literal fallback `0` otherwise.  Rational arithmetic
stands in for Python floats; only definedness is at stake in the claims. -/
def backendCompressionPct (fileSize zipSize : Nat) : ℚ :=
  if fileSize > 0 then (1 - (zipSize : ℚ) / (fileSize : ℚ)) * 100 else 0

/-- Embeds the unguarded computation of the root-level `create_backup`:
`compression = (1 - zip_size / file_size) * 100`, which raises
`ZeroDivisionError` (modelled as `none`) when the file size is zero. -/
def rootCompressionPct (fileSize zipSize : Nat) : Option ℚ :=
  if fileSize = 0 then none else some ((1 - (zipSize : ℚ) / (fileSize : ℚ)) * 100)

/-- Size in characters of the written primary data file. -/
def backupFileSize (metaFields : List (String × JValue))
    (nodes relations : List JValue) : Nat :=
  (jsonDump (backupData metaFields nodes relations)).length

/-! ## Backup ledger (backend `_update_log`, root `update_log`) -/

/-- State of the ledger file `BACKUP_LOG.json` before an update: absent,
unparsable, or holding a parsed JSON value. -/
inductive LedgerFile
  | missing
  | corrupt
  | content (v : JValue)

/-- The ledger entries a file state holds: the elements of the parsed JSON
array, and nothing for an absent, unparsable, or non-array file. -/
def ledgerEntries : LedgerFile → List JValue
  | LedgerFile.content (JValue.arr l) => l
  | _ => []

/-- Embeds backend `_update_log`: a missing file starts a fresh list, a
corrupt file is caught (`json.JSONDecodeError`) and also starts a fresh
list, a parsed array gets the entry appended, and any other parsed value
raises (`log_data.append` on a non-list), which aborts the update. -/
def backendUpdateLog : LedgerFile → JValue → Option LedgerFile
  | LedgerFile.missing, e => some (LedgerFile.content (JValue.arr [e]))
  | LedgerFile.corrupt, e => some (LedgerFile.content (JValue.arr [e]))
  | LedgerFile.content (JValue.arr l), e =>
      some (LedgerFile.content (JValue.arr (l ++ [e])))
  | LedgerFile.content _, _ => none

/-- Embeds the root-level `update_log`: identical to the backend version
except that an unparsable file raises (`json.JSONDecodeError` is not
caught there), aborting the update. -/
def rootUpdateLog : LedgerFile → JValue → Option LedgerFile
  | LedgerFile.missing, e => some (LedgerFile.content (JValue.arr [e]))
  | LedgerFile.corrupt, _ => none
  | LedgerFile.content (JValue.arr l), e =>
      some (LedgerFile.content (JValue.arr (l ++ [e])))
  | LedgerFile.content _, _ => none

/-! ## Batched restore (backend `_restore_nodes_batch`, `_restore_relations_batch`)

The archive entries are the dicts read from the backup JSON; the `id`,
`source`, `target` and `type` keys are read with `dict.get` and may be
absent.  New node identifiers are assigned by the database sequentially in
creation order, starting from a counter; the batched UNWIND CREATE returns
them one per batch item, in submission order. -/

/-- Archive node entry: `node.get("id")`, `node.get("labels", [])`,
`node.get("properties", ...)`. -/
structure BNode where
  nodeId : Option Int
  labels : List String
  properties : List (String × JValue)

/-- Archive relationship entry: `rel.get("source")`, `rel.get("target")`,
`rel.get("type", "RELATED_TO")`, `rel.get("properties", ...)`. -/
structure BRel where
  source : Option Int
  target : Option Int
  relType : Option String
  properties : List (String × JValue)

/-- A relationship after endpoint remapping and type sanitization, as
submitted to the batched creation statement. -/
structure MappedRel where
  sourceId : Int
  targetId : Int
  relType : String
  properties : List (String × JValue)

/-- Insertion-ordered dict write `d[k] = v`: an existing key is overwritten
in place, a new key is appended. -/
def dictInsert (k v : Int) : List (Int × Int) → List (Int × Int)
  | [] => [(k, v)]
  | (k', v') :: rest =>
      if k' = k then (k', v) :: rest else (k', v') :: dictInsert k v rest

/-- Insertion-ordered grouping dict used by both restore loops: a value is
appended to the bucket of its key, and a fresh key opens a new bucket at the
end. -/
def insertGrouped {α : Type} (k : String) (v : α) :
    List (String × List α) → List (String × List α)
  | [] => [(k, [v])]
  | (k', vs) :: rest =>
      if k' = k then (k', vs ++ [v]) :: rest
      else (k', vs) :: insertGrouped k v rest

/-- Fuel-indexed worker for `chunksOf`; the fuel is an upper bound on the
input length, so the fuel-exhausted branch is never taken in `chunksOf`. -/
def chunksOfAux (n : Nat) : Nat → List α → List (List α)
  | _, [] => []
  | 0, _ :: _ => []
  | fuel + 1, x :: xs => (x :: xs.take (n - 1)) :: chunksOfAux n fuel (xs.drop (n - 1))

/-- Splits a list into consecutive batches of at most `n` elements,
embedding the `range(0, len(xs), batch_size)` slicing loops. -/
def chunksOf (n : Nat) (l : List α) : List (List α) :=
  chunksOfAux n l.length l

/-- The batch size used by both backend restore loops. -/
def restoreBatchSize : Nat := 500

/-- Embeds the per-node label preparation of `_restore_nodes_batch`: a label
passing validation is kept, any other label is sanitized. -/
def safeLabel (label : String) : String :=
  if validate_cypher_label label then label else sanitize_label label

/-- The sanitized label list of one node. -/
def safeLabels (labels : List String) : List String :=
  labels.map safeLabel

/-- Lexicographic code point comparison of character lists, the order
Python `sorted` uses on strings. -/
def listLexLe : List Char → List Char → Bool
  | [], _ => true
  | _ :: _, [] => false
  | a :: as, b :: bs => if a = b then listLexLe as bs else decide (a < b)

/-- String comparison underlying Python `sorted`. -/
def pyStrLe (a b : String) : Bool :=
  listLexLe a.data b.data

/-- Sorted form of the sanitized labels, embedding Python `sorted` (the
lexicographic code point order). -/
def sortedSafeLabels (labels : List String) : List String :=
  (safeLabels labels).insertionSort (fun a b => pyStrLe a b = true)

/-- Embeds the grouping key
`":".join(sorted(safe_labels)) if safe_labels else "Node"`: the colon-joined
sorted sanitized labels, or the literal default `Node` for a node with no
labels. -/
def labelsKey (labels : List String) : String :=
  if safeLabels labels = [] then "Node"
  else joinWith ":" (sortedSafeLabels labels)

/-- The label set the creation statement `CREATE (n:key)` attaches to the
node: the distinct labels named by the key (a Cypher node carries a set of
labels, so repetitions in the key collapse). -/
def createdLabels (labels : List String) : List String :=
  (if safeLabels labels = [] then ["Node"] else sortedSafeLabels labels).dedup

/-- Embeds the grouping loop of `_restore_nodes_batch`: each node is
appended, as its `(old_id, properties)` payload, to the bucket of its labels
key, in input order. -/
def groupNodes (nodes : List BNode) : List (String × List (Option Int × List (String × JValue))) :=
  nodes.foldl (fun acc n => insertGrouped (labelsKey n.labels) (n.nodeId, n.properties) acc) []

/-- Processes one node batch on the happy path: the database returns one
fresh identifier per item, sequentially from the counter, and every item
with a non-null old id is recorded in the identifier map (a null old id is
created but not mapped). -/
def applyNodeBatch (st : Nat × List (Int × Int))
    (batch : List (Option Int × List (String × JValue))) : Nat × List (Int × Int) :=
  batch.foldl (fun st item =>
    match item.1 with
    | some oldId => (st.1 + 1, dictInsert oldId (Int.ofNat st.1) st.2)
    | none => (st.1 + 1, st.2)) st

/-- Embeds the full `_restore_nodes_batch` loop: groups in insertion order,
each group split into batches, each batch creating its nodes and extending
the identifier map.  Returns the next-identifier counter and the map. -/
def restoreNodesState (firstId : Nat) (nodes : List BNode) : Nat × List (Int × Int) :=
  (groupNodes nodes).foldl
    (fun st g => (chunksOf restoreBatchSize g.2).foldl applyNodeBatch st)
    (firstId, [])

/-- The identifier map produced by node restoration, old source id to newly
assigned id (`IdentifierMap` of the spec). -/
def restoreNodesMapping (nodes : List BNode) : List (Int × Int) :=
  (restoreNodesState 0 nodes).2

/-- Embeds the per-relationship filter and preparation of
`_restore_relations_batch`: a relationship whose source or target is absent
from the identifier map is dropped (`continue`); otherwise its endpoints are
remapped and its type validated or sanitized. -/
def relMapped (mapping : List (Int × Int)) (r : BRel) : Option MappedRel :=
  match r.source, r.target with
  | some s, some t =>
      match mapping.lookup s, mapping.lookup t with
      | some ns, some nt =>
          let raw := r.relType.getD "RELATED_TO"
          let rt := if validate_cypher_rel_type raw then raw else sanitize_label raw
          some ⟨ns, nt, rt, r.properties⟩
      | _, _ => none
  | _, _ => none

/-- A relationship is dangling when an endpoint id is absent from the
identifier map (including an absent endpoint key, which the Python
`None not in dict` check also treats as missing). -/
def isDangling (mapping : List (Int × Int)) (r : BRel) : Bool :=
  (relMapped mapping r).isNone

/-- The number of dangling relationships of an archive under a mapping. -/
def danglingCount (mapping : List (Int × Int)) (rels : List BRel) : Nat :=
  (rels.filter (isDangling mapping)).length

/-- One iteration of the grouping loop of `_restore_relations_batch`: a
kept relationship goes to the bucket of its sanitized type, a dropped one
leaves the buckets unchanged (the continue statement). -/
def relStep (mapping : List (Int × Int)) (acc : List (String × List MappedRel))
    (r : BRel) : List (String × List MappedRel) :=
  match relMapped mapping r with
  | some m => insertGrouped m.relType m acc
  | none => acc

/-- Embeds the grouping loop of `_restore_relations_batch`: kept
relationships are bucketed by sanitized type in insertion order; dropped
relationships contribute nothing. -/
def groupRels (mapping : List (Int × Int)) (rels : List BRel) :
    List (String × List MappedRel) :=
  rels.foldl (relStep mapping) []

/-- Embeds the creation loop on the happy path: for each type group and
each batch, the UNWIND CREATE statement reports `count(r)` equal to the
batch length, and the counts are summed into `restored_rels`. -/
def restoreRelsCount (mapping : List (Int × Int)) (rels : List BRel) : Nat :=
  ((groupRels mapping rels).map
    (fun g => ((chunksOf restoreBatchSize g.2).map List.length).sum)).sum

/-- The relationships actually submitted for creation, in grouped order. -/
def createdRels (mapping : List (Int × Int)) (rels : List BRel) : List MappedRel :=
  ((groupRels mapping rels).map (fun g => g.2)).flatten

/-- The observable outcome of a restore run into an empty target on the
happy path: `restore_backup` returns `True` and prints the two counts
`len(id_mapping)` and `restored_rels`; no further counters exist. -/
structure RestoreReport where
  success : Bool
  nodesRestored : Nat
  relationshipsRestored : Nat
deriving DecidableEq, Repr

/-- Embeds the data-restoration phase of `restore_backup` (empty target, no
database failures): node restoration builds the identifier map, then
relationship restoration consumes it. -/
def restoreReport (nodes : List BNode) (rels : List BRel) : RestoreReport :=
  let mapping := restoreNodesMapping nodes
  ⟨true, mapping.length, restoreRelsCount mapping rels⟩

/-! ## Theorems -/

theorem reTailMatch_spec (cs : List Char) :
    reTailMatch cs =
      (cs.all isIdentChar ||
        (decide (cs.getLast? = some '\n') && cs.dropLast.all isIdentChar)) := by
  induction cs with
  | nil => rfl
  | cons c cs ih =>
    cases cs with
    | nil =>
      by_cases hc : c = '\n' <;>
        simp [reTailMatch, hc, isIdentChar, isIdentStart]
    | cons d ds =>
      have h1 : reTailMatch (c :: d :: ds) = (isIdentChar c && reTailMatch (d :: ds)) := by
        show ((decide (c = '\n') && decide (d :: ds = [])) ||
          (isIdentChar c && reTailMatch (d :: ds))) = _
        simp
      rw [h1, ih]
      cases hic : isIdentChar c <;>
        simp [hic, Bool.and_or_distrib_left, Bool.and_left_comm]

theorem reTailMatch_of_all (cs : List Char) (h : cs.all isIdentChar = true) :
    reTailMatch cs = true := by
  rw [reTailMatch_spec, h, Bool.true_or]

theorem validate_eq_spec (s : String) :
    validate_cypher_identifier s =
      (specIdentifierGrammar s ||
        (decide (s.data.getLast? = some '\n') &&
          specIdentifierGrammar (String.mk s.data.dropLast))) := by
  obtain ⟨l⟩ := s
  cases l with
  | nil => rfl
  | cons c cs =>
    have hne : String.mk (c :: cs) ≠ "" := by
      intro h
      exact List.cons_ne_nil c cs (congrArg String.data h)
    rw [validate_cypher_identifier, if_neg hne]
    show (isIdentStart c && reTailMatch cs) = _
    cases cs with
    | nil =>
      by_cases hc : c = '\n' <;>
        simp [reTailMatch, hc, specIdentifierGrammar, isIdentStart]
    | cons d ds =>
      cases his : isIdentStart c <;>
        simp [reTailMatch_spec, his, specIdentifierGrammar,
          Bool.and_or_distrib_left]

theorem validate_label_eq_identifier (s : String) :
    validate_cypher_label s = validate_cypher_identifier s := by
  obtain ⟨l⟩ := s
  cases l with
  | nil => rfl
  | cons c cs =>
    have hne : String.mk (c :: cs) ≠ "" := by
      intro h
      exact List.cons_ne_nil c cs (congrArg String.data h)
    rw [validate_cypher_label, validate_cypher_identifier, if_neg hne]

/-- C2: the claimed equivalence between the validator and the identifier
grammar is false as stated; what holds is that the validator accepts
exactly the grammar-matching strings and, additionally, every
grammar-matching string followed by one trailing newline, because the
Python dollar anchor matches before a final newline.  The backend label
validator agrees with the shared identifier validator everywhere. -/
theorem c2_validate_grammar_up_to_trailing_newline :
    (∀ s : String,
      validate_cypher_identifier s =
        (specIdentifierGrammar s ||
          (decide (s.data.getLast? = some '\n') &&
            specIdentifierGrammar (String.mk s.data.dropLast)))) ∧
    (∀ s : String, validate_cypher_label s = validate_cypher_identifier s) :=
  ⟨validate_eq_spec, validate_label_eq_identifier⟩

/-- C2 counterexample: the string Learning followed by a newline contains
whitespace and does not match the identifier grammar, yet the validator
accepts it, refuting the claimed iff. -/
theorem c2_counterexample_trailing_newline :
    validate_cypher_identifier "Learning\n" = true ∧
    specIdentifierGrammar "Learning\n" = false ∧
    "Learning\n".data.any Char.isWhitespace = true := by
  decide

theorem pySubNonWord_all (s : String) :
    (pySubNonWord s).data.all isIdentChar = true := by
  show (s.data.map _).all isIdentChar = true
  rw [List.all_map, List.all_eq_true]
  intro c _
  by_cases h : isIdentChar c = true
  · simp [Function.comp, h]
  · simp only [Function.comp]
    rw [if_neg h]
    decide

theorem pySubNonWord_fix (s : String) (h : s.data.all isIdentChar = true) :
    pySubNonWord s = s := by
  obtain ⟨l⟩ := s
  show String.mk (l.map _) = String.mk l
  rw [List.all_eq_true] at h
  congr 1
  calc l.map (fun c => if isIdentChar c then c else '_')
      = l.map id := List.map_congr_left (fun c hc => by simp [h c hc])
    _ = l := List.map_id l

theorem data_append (a b : String) : (a ++ b).data = a.data ++ b.data := by
  obtain ⟨l⟩ := a
  obtain ⟨m⟩ := b
  rfl

theorem mk_ne_empty (l : List Char) (h : l ≠ []) : String.mk l ≠ "" := by
  intro hc
  exact h (congrArg String.data hc)

theorem firstIsDigit_cons (c : Char) (cs : List Char) :
    firstIsDigit (String.mk (c :: cs)) = pyIsDigit c := rfl

theorem underscore_append_mk (l : List Char) :
    "_" ++ String.mk l = String.mk ('_' :: l) := rfl

theorem sanitize_nonempty_props (s f : String) (hs : s ≠ "") :
    sanitize_cypher_identifier s f ≠ "" ∧
    (sanitize_cypher_identifier s f).data.all isIdentChar = true ∧
    firstIsDigit (sanitize_cypher_identifier s f) = false := by
  obtain ⟨l⟩ := s
  have hl : l ≠ [] := by
    intro h
    subst h
    exact hs rfl
  have hall : (l.map (fun c => if isIdentChar c then c else '_')).all isIdentChar = true :=
    pySubNonWord_all (String.mk l)
  cases hlm : l.map (fun c => if isIdentChar c then c else '_') with
  | nil => exact absurd (List.map_eq_nil_iff.mp hlm) hl
  | cons c cs =>
    rw [hlm] at hall
    have h1 : pySubNonWord (String.mk l) = String.mk (c :: cs) := by
      show String.mk (l.map _) = _
      rw [hlm]
    have h2 : sanitize_cypher_identifier (String.mk l) f =
        (if firstIsDigit (String.mk (c :: cs)) then String.mk ('_' :: c :: cs)
         else String.mk (c :: cs)) := by
      rw [sanitize_cypher_identifier, if_neg hs, h1]
      show (if (if firstIsDigit (String.mk (c :: cs)) = true then "_" ++ String.mk (c :: cs)
              else String.mk (c :: cs)) = "" then f
            else if firstIsDigit (String.mk (c :: cs)) = true then "_" ++ String.mk (c :: cs)
              else String.mk (c :: cs)) = _
      by_cases hfd : firstIsDigit (String.mk (c :: cs)) = true
      · rw [if_pos hfd, if_pos hfd, underscore_append_mk,
          if_neg (mk_ne_empty _ (List.cons_ne_nil _ _))]
      · rw [if_neg hfd, if_neg hfd, if_neg (mk_ne_empty _ (List.cons_ne_nil _ _))]
    rw [h2]
    by_cases hfd : firstIsDigit (String.mk (c :: cs)) = true
    · rw [if_pos hfd]
      refine ⟨mk_ne_empty _ (List.cons_ne_nil _ _), ?_, ?_⟩
      · show ('_' :: c :: cs).all isIdentChar = true
        rw [List.all_cons, hall]
        decide
      · rw [firstIsDigit_cons]
        decide
    · rw [if_neg hfd]
      have hfd2 : firstIsDigit (String.mk (c :: cs)) = false := by
        cases h : firstIsDigit (String.mk (c :: cs))
        · rfl
        · exact absurd h hfd
      exact ⟨mk_ne_empty _ (List.cons_ne_nil _ _), hall, hfd2⟩

/-- C6 corrected: sanitization is idempotent whenever the input is nonempty
(for arbitrary fallbacks), or the fallback is itself a fixed point of
sanitization (as the default fallback Node is); the unrestricted claim
fails only for an empty input with a fallback the sanitizer would alter. -/
theorem c6_sanitize_idempotent (s f : String)
    (h : s ≠ "" ∨ sanitize_cypher_identifier f f = f) :
    sanitize_cypher_identifier (sanitize_cypher_identifier s f) f =
      sanitize_cypher_identifier s f := by
  by_cases hs : s = ""
  · subst hs
    have h0 : sanitize_cypher_identifier "" f = f := by
      rw [sanitize_cypher_identifier, if_pos rfl]
    rcases h with hs' | hf
    · exact absurd rfl hs'
    · rw [h0, hf]
  · obtain ⟨hne, hall, hdig⟩ := sanitize_nonempty_props s f hs
    rw [sanitize_cypher_identifier, if_neg hne]
    have hfix : pySubNonWord (sanitize_cypher_identifier s f) =
        sanitize_cypher_identifier s f := pySubNonWord_fix _ hall
    show (if (if firstIsDigit (pySubNonWord (sanitize_cypher_identifier s f)) = true
            then "_" ++ pySubNonWord (sanitize_cypher_identifier s f)
            else pySubNonWord (sanitize_cypher_identifier s f)) = "" then f
          else if firstIsDigit (pySubNonWord (sanitize_cypher_identifier s f)) = true
            then "_" ++ pySubNonWord (sanitize_cypher_identifier s f)
            else pySubNonWord (sanitize_cypher_identifier s f)) = _
    rw [hfix, hdig]
    simp only [Bool.false_eq_true, if_false]
    rw [if_neg hne]

/-- C6 counterexample: with the empty string and the fallback 9 (a string
the sanitizer does not fix), one application returns 9 but a second
application returns underscore-9, so the unrestricted idempotence claim is
false. -/
theorem c6_counterexample_empty_input :
    sanitize_cypher_identifier "" "9" = "9" ∧
    sanitize_cypher_identifier (sanitize_cypher_identifier "" "9") "9" = "_9" := by
  decide

/-- C6 witness: the idempotence theorem applied at a concrete nonempty
input. -/
theorem c6_sanitize_idempotent_witness :
    ("Learning!" ≠ "" ∨ sanitize_cypher_identifier "Node" "Node" = "Node") ∧
    sanitize_cypher_identifier (sanitize_cypher_identifier "Learning!" "Node") "Node" =
      sanitize_cypher_identifier "Learning!" "Node" :=
  ⟨Or.inl (by decide), c6_sanitize_idempotent "Learning!" "Node" (Or.inl (by decide))⟩

theorem isIdentStart_of_not_digit (c : Char) (h1 : isIdentChar c = true)
    (h2 : pyIsDigit c = false) : isIdentStart c = true := by
  simp only [pyIsDigit] at h2
  simp only [isIdentChar] at h1
  rw [h2, Bool.or_false] at h1
  exact h1

/-- C9 confirmed: for every input string and every fallback satisfying the
identifier grammar, the sanitizer output passes validation, so sanitized
labels and relationship types are always safe to splice into query text. -/
theorem c9_sanitized_passes_validation (s f : String)
    (hf : specIdentifierGrammar f = true) :
    validate_cypher_identifier (sanitize_cypher_identifier s f) = true := by
  by_cases hs : s = ""
  · subst hs
    rw [sanitize_cypher_identifier, if_pos rfl]
    obtain ⟨lf⟩ := f
    cases lf with
    | nil => exact absurd hf (by decide)
    | cons c cs =>
      have hc : isIdentStart c = true ∧ cs.all isIdentChar = true := by
        have : (isIdentStart c && cs.all isIdentChar) = true := hf
        exact ⟨(Bool.and_eq_true_iff.mp this).1, (Bool.and_eq_true_iff.mp this).2⟩
      rw [validate_cypher_identifier, if_neg (mk_ne_empty _ (List.cons_ne_nil _ _))]
      show (isIdentStart c && reTailMatch cs) = true
      rw [hc.1, reTailMatch_of_all cs hc.2]
      rfl
  · obtain ⟨hne, hall, hdig⟩ := sanitize_nonempty_props s f hs
    rw [validate_cypher_identifier, if_neg hne]
    obtain ⟨lo, hlo⟩ : ∃ lo, (sanitize_cypher_identifier s f).data = lo := ⟨_, rfl⟩
    cases lo with
    | nil => exact absurd (congrArg String.mk hlo) hne
    | cons c cs =>
      rw [hlo] at hall
      have hdig2 : pyIsDigit c = false := by
        have : firstIsDigit (sanitize_cypher_identifier s f) =
            match (sanitize_cypher_identifier s f).data with
            | [] => false
            | c :: _ => pyIsDigit c := rfl
        rw [this, hlo] at hdig
        exact hdig
      have hmatch : pyIdentMatch (sanitize_cypher_identifier s f) =
          (isIdentStart c && reTailMatch cs) := by
        rw [pyIdentMatch, hlo]
      rw [hmatch, List.all_cons, Bool.and_eq_true_iff] at *
      rw [isIdentStart_of_not_digit c hall.1 hdig2, reTailMatch_of_all cs hall.2]
      exact ⟨rfl, rfl⟩

/-- C9 witness: the theorem applied at a concrete unsafe input with the
default fallback. -/
theorem c9_sanitized_passes_validation_witness :
    specIdentifierGrammar "Node" = true ∧
    validate_cypher_identifier (sanitize_cypher_identifier "9 label!" "Node") = true :=
  ⟨by decide, c9_sanitized_passes_validation "9 label!" "Node" (by decide)⟩

theorem string_length_data (l : List Char) : (String.mk l).length = l.length := rfl

theorem sanitize_label_length_pos (l : String) : 0 < (sanitize_label l).length := by
  rw [sanitize_label]
  show 0 < (if (if firstIsDigit (pySubNonWord l) = true
      then "_" ++ pySubNonWord l else pySubNonWord l) = "" then "Node"
    else if firstIsDigit (pySubNonWord l) = true
      then "_" ++ pySubNonWord l else pySubNonWord l).length
  by_cases h : (if firstIsDigit (pySubNonWord l) = true
      then "_" ++ pySubNonWord l else pySubNonWord l) = ""
  · rw [if_pos h]
    decide
  · rw [if_neg h]
    by_cases hfd : firstIsDigit (pySubNonWord l) = true
    · rw [if_pos hfd]
      rw [String.length_append]
      have : 0 < ("_" : String).length := by decide
      omega
    · rw [if_neg hfd] at h ⊢
      obtain ⟨lp⟩ : ∃ lp, pySubNonWord l = String.mk lp := ⟨(pySubNonWord l).data, rfl⟩
      rename_i hlp
      rw [hlp] at h ⊢
      rw [string_length_data]
      cases lp with
      | nil => exact absurd rfl h
      | cons c cs => simp

theorem safeLabel_length_pos (l : String) : 0 < (safeLabel l).length := by
  rw [safeLabel]
  by_cases h : validate_cypher_label l = true
  · rw [if_pos h]
    rw [validate_cypher_label, pyIdentMatch] at h
    obtain ⟨lc⟩ := l
    cases lc with
    | nil => exact absurd h (by decide)
    | cons c cs =>
      rw [string_length_data]
      simp
  · rw [if_neg h]
    exact sanitize_label_length_pos l

theorem joinWith_length_pos (sep x : String) (xs : List String)
    (hx : 0 < x.length) : 0 < (joinWith sep (x :: xs)).length := by
  cases xs with
  | nil => exact hx
  | cons y ys =>
    show 0 < (x ++ sep ++ joinWith sep (y :: ys)).length
    rw [String.length_append, String.length_append]
    omega

theorem dedup_all_eq_node (l : List String) (hne : l ≠ [])
    (h : ∀ x ∈ l, x = "Node") : l.dedup = ["Node"] := by
  induction l with
  | nil => exact absurd rfl hne
  | cons x xs ih =>
    have hx : x = "Node" := h x (List.mem_cons_self x xs)
    cases xs with
    | nil =>
      subst hx
      decide
    | cons y ys =>
      have hy : y = "Node" := h y (List.mem_cons_of_mem x (List.mem_cons_self y ys))
      have hmem : x ∈ y :: ys := by
        rw [hx, hy]
        exact List.mem_cons_self _ _
      rw [List.dedup_cons_of_mem hmem]
      exact ih (List.cons_ne_nil y ys) (fun z hz => h z (List.mem_cons_of_mem x hz))

/-- C10 confirmed: node restoration never builds a label-less creation
statement; a node with no labels is grouped under the literal key Node, so
it is created with the default label Node, and nodes whose labels are all
empty strings also end up carrying exactly the label Node. -/
theorem c10_default_label_node :
    (∀ ls : List String, 0 < (labelsKey ls).length) ∧
    labelsKey ([] : List String) = "Node" ∧
    createdLabels ([] : List String) = ["Node"] ∧
    (∀ ls : List String, ls ≠ [] → (∀ l, l ∈ ls → l = "") →
      createdLabels ls = ["Node"]) := by
  refine ⟨?_, by decide, by decide, ?_⟩
  · intro ls
    rw [labelsKey]
    by_cases h : safeLabels ls = []
    · rw [if_pos h]
      decide
    · rw [if_neg h]
      have hperm := List.perm_insertionSort
        (fun a b : String => pyStrLe a b = true) (safeLabels ls)
      have hlen : (sortedSafeLabels ls).length = (safeLabels ls).length :=
        hperm.length_eq
      cases hsl : sortedSafeLabels ls with
      | nil =>
        rw [hsl] at hlen
        exact absurd (List.length_eq_zero.mp hlen.symm) h
      | cons x xs =>
        have hx : x ∈ safeLabels ls := by
          rw [← hperm.mem_iff]
          show x ∈ sortedSafeLabels ls
          rw [hsl]
          exact List.mem_cons_self x xs
        obtain ⟨l0, _, hl0⟩ := List.mem_map.mp hx
        exact joinWith_length_pos ":" x xs (hl0 ▸ safeLabel_length_pos l0)
  · intro ls hne hall
    rw [createdLabels]
    have hsl : ∀ x ∈ safeLabels ls, x = "Node" := by
      intro x hx
      obtain ⟨l0, hl0m, hl0⟩ := List.mem_map.mp hx
      rw [hall l0 hl0m] at hl0
      rw [← hl0]
      decide
    have hslne : safeLabels ls ≠ [] := by
      intro h
      exact hne (List.map_eq_nil_iff.mp h)
    rw [if_neg hslne]
    have hperm := List.perm_insertionSort
      (fun a b : String => pyStrLe a b = true) (safeLabels ls)
    refine dedup_all_eq_node _ ?_ ?_
    · intro h
      rw [sortedSafeLabels] at h
      rw [h] at hperm
      exact hslne (List.Perm.eq_nil hperm.symm)
    · intro x hx
      exact hsl x (hperm.mem_iff.mp hx)

/-- C10 witness: the theorem applied at concrete label lists. -/
theorem c10_default_label_node_witness :
    0 < (labelsKey ["café", "9x"]).length ∧
    createdLabels ["", ""] = ["Node"] :=
  ⟨c10_default_label_node.1 ["café", "9x"],
   c10_default_label_node.2.2.2 ["", ""] (by decide) (by decide)⟩

/-- C1 corrected: absolute entries are always skipped, extraction of an
entry implies its resolved target passed the string-prefix check against
the extraction directory, a skipped entry never aborts the remaining
entries, and everything actually extracted is written inside the extraction
directory (the extraction primitive drops parent components).  The original
claim that every entry resolving outside the directory is skipped is
refuted separately: the string-prefix check admits siblings whose name
extends the directory name. -/
theorem c1_extraction_confined (td : List String) (_hclean : cleanDirComps td = true) :
    (∀ m : String, pyIsAbsolute m = true → extractDecision td m = none) ∧
    (∀ m : String, ∀ dest : List String, extractDecision td m = some dest →
        strStartsWith (pathStr (resolveUnder td m)) (pathStr td) = true ∧
        isWithin dest td = true) ∧
    (∀ m : String, ∀ names : List String, extractDecision td m = none →
        extractAll td (m :: names) = extractAll td names) ∧
    (∀ names : List String, ∀ p : List String,
        p ∈ extractAll td names → isWithin p td = true) := by
  have habs : ∀ m : String, pyIsAbsolute m = true → extractDecision td m = none := by
    intro m h
    rw [extractDecision, if_pos h]
  have hdec : ∀ m : String, ∀ dest : List String, extractDecision td m = some dest →
      strStartsWith (pathStr (resolveUnder td m)) (pathStr td) = true ∧
      isWithin dest td = true := by
    intro m dest h
    rw [extractDecision] at h
    by_cases h1 : pyIsAbsolute m = true
    · rw [if_pos h1] at h
      exact absurd h (by simp)
    · rw [if_neg h1] at h
      by_cases h2 : strStartsWith (pathStr (resolveUnder td m)) (pathStr td) = true
      · rw [h2] at h
        simp only [Bool.not_true, Bool.false_eq_true, if_false] at h
        by_cases h3 : strEndsWith m ".json" = true
        · rw [if_pos h3] at h
          refine ⟨h2, ?_⟩
          have hd : dest = td ++ zipExtractParts m := (Option.some.injEq _ _).mp h.symm
          rw [hd, isWithin]
          exact List.isPrefixOf_iff_prefix.mpr (List.prefix_append td _)
        · rw [if_neg h3] at h
          exact absurd h (by simp)
      · have h2f : strStartsWith (pathStr (resolveUnder td m)) (pathStr td) = false := by
          cases hb : strStartsWith (pathStr (resolveUnder td m)) (pathStr td)
          · rfl
          · exact absurd hb h2
        rw [h2f] at h
        simp only [Bool.not_false, if_true] at h
        exact absurd h (by simp)
  refine ⟨habs, hdec, ?_, ?_⟩
  · intro m names h
    rw [extractAll, extractAll, List.filterMap_cons, h]
  · intro names p hp
    rw [extractAll] at hp
    obtain ⟨m, _, hm⟩ := List.mem_filterMap.mp hp
    exact (hdec m p hm).2

/-- C1 witness: the theorem applied at a concrete clean extraction
directory, rejecting an absolute entry and confining a normal one. -/
theorem c1_extraction_confined_witness :
    extractDecision ["tmp", "neo4j_restore_x"] "/etc/evil.json" = none ∧
    isWithin ["tmp", "neo4j_restore_x", "backup.json"] ["tmp", "neo4j_restore_x"] = true :=
  ⟨(c1_extraction_confined ["tmp", "neo4j_restore_x"] (by decide)).1
      "/etc/evil.json" (by decide),
   ((c1_extraction_confined ["tmp", "neo4j_restore_x"] (by decide)).2.1
      "backup.json" ["tmp", "neo4j_restore_x", "backup.json"] (by decide)).2⟩

/-- C1 counterexample: an entry climbing to a sibling directory whose name
extends the extraction directory name resolves outside the extraction
directory, yet the string-prefix check accepts it and the entry is
extracted, refuting the claim that every entry resolving outside is
skipped. -/
theorem c1_counterexample_sibling_escape :
    (extractDecision ["tmp", "neo4j_restore_a"] "../neo4j_restore_ab/evil.json").isSome
      = true ∧
    isWithin (resolveUnder ["tmp", "neo4j_restore_a"] "../neo4j_restore_ab/evil.json")
      ["tmp", "neo4j_restore_a"] = false := by
  decide

/-- C4 corrected: the backend clear-target step deletes relationships and
then nodes inside one transaction forming a single atomic unit, runs only
on an affirmative confirmation against a non-empty target, and never issues
node deletion before relationship deletion; the root-level engine also
orders relationships first but issues the two deletions as separate
auto-committed statements, which the counterexample records. -/
theorem c4_clear_target_atomic_ordered (n r : Nat) (c : String) :
    singleAtomicTx backendClearEvents = true ∧
    DbEvent.runQ ClearQuery.deleteAllRels ∈ backendClearEvents ∧
    DbEvent.runQ ClearQuery.deleteAllNodes ∈ backendClearEvents ∧
    noNodesBeforeRels backendClearEvents = true ∧
    noNodesBeforeRels rootClearEvents = true ∧
    (prepareClearEvents n r c = backendClearEvents ∨ prepareClearEvents n r c = []) ∧
    (prepareClearEvents n r c ≠ [] → pyLower c = "yes" ∧ (0 < n ∨ 0 < r)) := by
  refine ⟨by decide, by decide, by decide, by decide, by decide, ?_, ?_⟩
  · rw [prepareClearEvents]
    by_cases h1 : (decide (n > 0) || decide (r > 0)) = true
    · rw [if_pos h1]
      by_cases h2 : pyLower c = "yes"
      · rw [if_pos h2]
        exact Or.inl rfl
      · rw [if_neg h2]
        exact Or.inr rfl
    · rw [if_neg h1]
      exact Or.inr rfl
  · intro hne
    rw [prepareClearEvents] at hne
    by_cases h1 : (decide (n > 0) || decide (r > 0)) = true
    · rw [if_pos h1] at hne
      by_cases h2 : pyLower c = "yes"
      · refine ⟨h2, ?_⟩
        rcases Bool.or_eq_true_iff.mp h1 with h | h
        · exact Or.inl (of_decide_eq_true h)
        · exact Or.inr (of_decide_eq_true h)
      · rw [if_neg h2] at hne
        exact absurd rfl hne
    · rw [if_neg h1] at hne
      exact absurd rfl hne

/-- C4 witness: the theorem applied at a non-empty target with an
uppercase affirmative answer. -/
theorem c4_clear_target_witness :
    pyLower "YES" = "yes" ∧ (0 < 1 ∨ 0 < 0) :=
  (c4_clear_target_atomic_ordered 1 0 "YES").2.2.2.2.2.2 (by decide)

/-- C4 counterexample: the root-level engine runs relationship deletion and
node deletion as two auto-committed statements, so its clear step is not a
single transaction committing or rolling back as a unit. -/
theorem c4_counterexample_root_two_transactions :
    singleAtomicTx rootClearEvents = false ∧
    rootClearEvents.countP isTxBegin = 2 := by
  decide

/-- C7 confirmed: whenever a ledger update completes (in either engine),
the resulting ledger file holds exactly the previous entries followed by
the one new entry; no previously parsed entry is ever dropped. -/
theorem c7_ledger_append_preserves (st : LedgerFile) (e : JValue) (st' : LedgerFile) :
    (backendUpdateLog st e = some st' → ledgerEntries st' = ledgerEntries st ++ [e]) ∧
    (rootUpdateLog st e = some st' → ledgerEntries st' = ledgerEntries st ++ [e]) := by
  constructor
  · intro h
    cases st with
    | missing =>
      rw [backendUpdateLog] at h
      rw [← (Option.some.injEq _ _).mp h]
      rfl
    | corrupt =>
      rw [backendUpdateLog] at h
      rw [← (Option.some.injEq _ _).mp h]
      rfl
    | content v =>
      cases v with
      | arr l =>
        rw [backendUpdateLog] at h
        rw [← (Option.some.injEq _ _).mp h]
        rfl
      | null => exact absurd h (by rw [backendUpdateLog]; simp; exact fun l hl => JValue.noConfusion hl)
      | bool b => exact absurd h (by rw [backendUpdateLog]; simp; exact fun l hl => JValue.noConfusion hl)
      | num x => exact absurd h (by rw [backendUpdateLog]; simp; exact fun l hl => JValue.noConfusion hl)
      | str s => exact absurd h (by rw [backendUpdateLog]; simp; exact fun l hl => JValue.noConfusion hl)
      | obj fs => exact absurd h (by rw [backendUpdateLog]; simp; exact fun l hl => JValue.noConfusion hl)
  · intro h
    cases st with
    | missing =>
      rw [rootUpdateLog] at h
      rw [← (Option.some.injEq _ _).mp h]
      rfl
    | corrupt => exact absurd h (by rw [rootUpdateLog]; simp)
    | content v =>
      cases v with
      | arr l =>
        rw [rootUpdateLog] at h
        rw [← (Option.some.injEq _ _).mp h]
        rfl
      | null => exact absurd h (by rw [rootUpdateLog]; simp; exact fun l hl => JValue.noConfusion hl)
      | bool b => exact absurd h (by rw [rootUpdateLog]; simp; exact fun l hl => JValue.noConfusion hl)
      | num x => exact absurd h (by rw [rootUpdateLog]; simp; exact fun l hl => JValue.noConfusion hl)
      | str s => exact absurd h (by rw [rootUpdateLog]; simp; exact fun l hl => JValue.noConfusion hl)
      | obj fs => exact absurd h (by rw [rootUpdateLog]; simp; exact fun l hl => JValue.noConfusion hl)

/-- C7 witness: appending one entry to a concrete one-entry ledger. -/
theorem c7_ledger_append_preserves_witness :
    ledgerEntries (LedgerFile.content (JValue.arr [JValue.num 1, JValue.num 2])) =
      ledgerEntries (LedgerFile.content (JValue.arr [JValue.num 1])) ++ [JValue.num 2] :=
  (c7_ledger_append_preserves (LedgerFile.content (JValue.arr [JValue.num 1]))
    (JValue.num 2) (LedgerFile.content (JValue.arr [JValue.num 1, JValue.num 2]))).1 rfl

theorem jsonRender_obj_length_pos (level : Nat) (fields : List (String × JValue)) :
    0 < (jsonRender level (JValue.obj fields)).length := by
  rw [jsonRender]
  by_cases h : fields.isEmpty = true
  · rw [if_pos h]
    decide
  · rw [if_neg h]
    simp only [String.length_append]
    have : ("\x7b\n" : String).length = 2 := by decide
    omega

/-- C8 confirmed: an export with zero nodes and zero relationships still
serializes to a non-empty primary file, so the compression computation is
defined even in the unguarded root-level form, and it agrees with the
guarded backend form; no division by zero can occur. -/
theorem c8_empty_export_no_fault (metaFields : List (String × JValue)) (zipSize : Nat) :
    0 < backupFileSize metaFields [] [] ∧
    rootCompressionPct (backupFileSize metaFields [] []) zipSize =
      some (backendCompressionPct (backupFileSize metaFields [] []) zipSize) := by
  have hpos : 0 < backupFileSize metaFields [] [] := by
    rw [backupFileSize, jsonDump, backupData]
    exact jsonRender_obj_length_pos 0 _
  refine ⟨hpos, ?_⟩
  rw [rootCompressionPct, backendCompressionPct, if_neg (Nat.pos_iff_ne_zero.mp hpos),
    if_pos hpos]

theorem chunksOfAux_length_sum {α : Type} (n : Nat) :
    ∀ (fuel : Nat) (l : List α), l.length ≤ fuel →
      ((chunksOfAux n fuel l).map List.length).sum = l.length := by
  intro fuel
  induction fuel with
  | zero =>
    intro l hl
    cases l with
    | nil => rfl
    | cons x xs => simp at hl
  | succ f ih =>
    intro l hl
    cases l with
    | nil => rfl
    | cons x xs =>
      show (((x :: xs.take (n - 1)) :: chunksOfAux n f (xs.drop (n - 1))).map
        List.length).sum = (x :: xs).length
      rw [List.map_cons, List.sum_cons,
        ih (xs.drop (n - 1)) (by rw [List.length_drop]; simp at hl; omega)]
      rw [List.length_cons, List.length_take, List.length_drop, List.length_cons]
      omega

theorem chunksOf_length_sum {α : Type} (n : Nat) (l : List α) :
    ((chunksOf n l).map List.length).sum = l.length :=
  chunksOfAux_length_sum n l.length l (Nat.le_refl _)

theorem sum_insertGrouped {α : Type} (k : String) (v : α)
    (gs : List (String × List α)) :
    ((insertGrouped k v gs).map (fun g => g.2.length)).sum =
      ((gs.map (fun g => g.2.length)).sum) + 1 := by
  induction gs with
  | nil => rfl
  | cons g rest ih =>
    obtain ⟨k2, vs⟩ := g
    rw [insertGrouped]
    by_cases h : k2 = k
    · rw [if_pos h]
      simp [List.length_append]
      omega
    · rw [if_neg h]
      simp only [List.map_cons, List.sum_cons, ih]
      omega

theorem mem_flat_insertGrouped {α : Type} (k : String) (v : α)
    (gs : List (String × List α)) (m : α)
    (hm : m ∈ ((insertGrouped k v gs).map (fun g => g.2)).flatten) :
    m = v ∨ m ∈ (gs.map (fun g => g.2)).flatten := by
  induction gs with
  | nil =>
    simp [insertGrouped] at hm
    exact Or.inl hm
  | cons g rest ih =>
    obtain ⟨k2, vs⟩ := g
    rw [insertGrouped] at hm
    by_cases h : k2 = k
    · rw [if_pos h] at hm
      simp only [List.map_cons, List.flatten_cons, List.mem_append] at hm ⊢
      rcases hm with (hv | he) | hr
      · exact Or.inr (Or.inl hv)
      · exact Or.inl (List.mem_singleton.mp he)
      · exact Or.inr (Or.inr hr)
    · rw [if_neg h] at hm
      simp only [List.map_cons, List.flatten_cons, List.mem_append] at hm ⊢
      rcases hm with hv | hr
      · exact Or.inr (Or.inl hv)
      · rcases ih hr with he | hrest
        · exact Or.inl he
        · exact Or.inr (Or.inr hrest)

theorem sum_foldl_relStep (mapping : List (Int × Int)) :
    ∀ (rels : List BRel) (acc : List (String × List MappedRel)),
      ((rels.foldl (relStep mapping) acc).map (fun g => g.2.length)).sum =
        ((acc.map (fun g => g.2.length)).sum) +
          rels.countP (fun r => (relMapped mapping r).isSome) := by
  intro rels
  induction rels with
  | nil =>
    intro acc
    simp
  | cons r rs ih =>
    intro acc
    rw [List.foldl_cons, List.countP_cons]
    cases h : relMapped mapping r with
    | none =>
      have hstep : relStep mapping acc r = acc := by
        simp only [relStep, h]
      rw [hstep, ih]
      simp [h]
    | some m =>
      have hstep : relStep mapping acc r = insertGrouped m.relType m acc := by
        simp only [relStep, h]
      rw [hstep, ih, sum_insertGrouped]
      simp [h]
      omega

theorem restoreRelsCount_eq_countP (mapping : List (Int × Int)) (rels : List BRel) :
    restoreRelsCount mapping rels =
      rels.countP (fun r => (relMapped mapping r).isSome) := by
  rw [restoreRelsCount]
  have h1 : (groupRels mapping rels).map
      (fun g => ((chunksOf restoreBatchSize g.2).map List.length).sum) =
      (groupRels mapping rels).map (fun g => g.2.length) :=
    List.map_congr_left (fun g _ => chunksOf_length_sum _ _)
  rw [h1, groupRels, sum_foldl_relStep]
  simp

theorem countP_some_add_dangling (mapping : List (Int × Int)) (rels : List BRel) :
    rels.countP (fun r => (relMapped mapping r).isSome) + danglingCount mapping rels =
      rels.length := by
  rw [danglingCount, ← List.countP_eq_length_filter]
  induction rels with
  | nil => rfl
  | cons r rs ih =>
    rw [List.countP_cons, List.countP_cons, List.length_cons]
    cases h : relMapped mapping r with
    | none =>
      simp only [h, Option.isSome_none, isDangling, Option.isNone_none]
      simp
      omega
    | some m =>
      simp only [h, Option.isSome_some, isDangling, Option.isNone_some]
      simp
      omega

theorem mem_createdRels_provenance (mapping : List (Int × Int)) (rels : List BRel)
    (m : MappedRel) (hm : m ∈ createdRels mapping rels) :
    ∃ r, r ∈ rels ∧ relMapped mapping r = some m := by
  rw [createdRels, groupRels] at hm
  have h : ∀ (rs : List BRel) (acc : List (String × List MappedRel)),
      m ∈ ((rs.foldl (relStep mapping) acc).map (fun g => g.2)).flatten →
      m ∈ (acc.map (fun g => g.2)).flatten ∨
        ∃ r, r ∈ rs ∧ relMapped mapping r = some m := by
    intro rs
    induction rs with
    | nil =>
      intro acc h
      exact Or.inl h
    | cons r rs ih =>
      intro acc h
      rw [List.foldl_cons] at h
      cases hr : relMapped mapping r with
      | none =>
        have hstep : relStep mapping acc r = acc := by
          simp only [relStep, hr]
        rw [hstep] at h
        rcases ih _ h with h0 | ⟨r2, hr2, hm2⟩
        · exact Or.inl h0
        · exact Or.inr ⟨r2, List.mem_cons_of_mem r hr2, hm2⟩
      | some m2 =>
        have hstep : relStep mapping acc r = insertGrouped m2.relType m2 acc := by
          simp only [relStep, hr]
        rw [hstep] at h
        rcases ih _ h with h0 | ⟨r2, hr2, hm2⟩
        · rcases mem_flat_insertGrouped _ _ _ _ h0 with he | h1
          · refine Or.inr ⟨r, List.mem_cons_self r rs, ?_⟩
            rw [he]
            exact hr
          · exact Or.inl h1
        · exact Or.inr ⟨r2, List.mem_cons_of_mem r hr2, hm2⟩
  rcases h rels [] hm with h0 | h1
  · simp at h0
  · exact h1

/-- C3 corrected: a relationship whose endpoint is absent from the
identifier map is dropped without aborting the restore (the restored count
plus the dangling count always equals the archive relationship count, and
everything submitted for creation stems from a non-dangling archive
relationship), and the run completes successfully; but the skipped
relationship is dropped silently, with no relationshipsSkipped counter in
the reported outcome, which the counterexample records. -/
theorem c3_dangling_skipped_not_fatal (mapping : List (Int × Int)) (rels : List BRel) :
    restoreRelsCount mapping rels + danglingCount mapping rels = rels.length ∧
    (∀ m : MappedRel, m ∈ createdRels mapping rels →
      ∃ r, r ∈ rels ∧ relMapped mapping r = some m) ∧
    (∀ nodes : List BNode, (restoreReport nodes rels).success = true) := by
  refine ⟨?_, mem_createdRels_provenance mapping rels, fun _ => rfl⟩
  rw [restoreRelsCount_eq_countP]
  exact countP_some_add_dangling mapping rels

/-- C3 witness: the theorem applied at a concrete archive with one dangling
relationship, and at one with a live relationship whose created form is
traced back to its source. -/
theorem c3_dangling_skipped_not_fatal_witness :
    restoreRelsCount [(1, 0)] [⟨some 99, some 1, some "KNOWS", []⟩] +
      danglingCount [(1, 0)] [⟨some 99, some 1, some "KNOWS", []⟩] = 1 ∧
    (∃ r, r ∈ ([⟨some 1, some 1, some "KNOWS", []⟩] : List BRel) ∧
      relMapped [(1, 5)] r = some ⟨5, 5, "KNOWS", []⟩) :=
  ⟨(c3_dangling_skipped_not_fatal [(1, 0)] [⟨some 99, some 1, some "KNOWS", []⟩]).1,
   (c3_dangling_skipped_not_fatal [(1, 5)] [⟨some 1, some 1, some "KNOWS", []⟩]).2.1
     ⟨5, 5, "KNOWS", []⟩ (List.mem_singleton.mpr rfl)⟩

/-- C3 counterexample: two archives with the same single node and different
numbers of dangling relationships produce identical restore outcomes, so
the reported outcome carries no relationshipsSkipped count; the dangling
relationships are dropped silently. -/
theorem c3_counterexample_no_skip_counter :
    restoreReport [⟨some 1, ["Person"], []⟩] [⟨some 99, some 1, some "KNOWS", []⟩] =
      restoreReport [⟨some 1, ["Person"], []⟩]
        [⟨some 99, some 1, some "KNOWS", []⟩, ⟨some 1, some 98, some "KNOWS", []⟩] ∧
    danglingCount (restoreNodesMapping [⟨some 1, ["Person"], []⟩])
      [⟨some 99, some 1, some "KNOWS", []⟩] = 1 ∧
    danglingCount (restoreNodesMapping [⟨some 1, ["Person"], []⟩])
      [⟨some 99, some 1, some "KNOWS", []⟩, ⟨some 1, some 98, some "KNOWS", []⟩] = 2 := by
  decide
